import Mathlib

/-!
Verification of the Kearney data-chat application: a shallow embedding of
the upload client, the chat client, and the server-side ingestion,
SQL-validation and orchestration components described by the design
document, together with theorems about the claimed properties.
-/

namespace Kearney

/-! ### SchemaSanitizer

Modelled from the spec: the server-side SchemaSanitizer component is not
part of the visible client sources.  Section 4.1 of the design document
gives its contract: `sanitize(rawLabel, usedNames)` produces a lowercase
identifier over `[a-z0-9_]` starting with a letter or underscore,
replaces non-conforming characters with an underscore, puts `col_` in
front of a label that becomes empty or collides with a reserved word,
and resolves a collision with `usedNames` by appending an incrementing
numeric suffix `_2`, `_3`, and so on. -/

/-- Modelled from the spec: characters admitted by the identifier
grammar of section 4.1, namely lowercase letters, digits and the
underscore. -/
def isIdentChar (c : Char) : Bool :=
  (decide ('a' ≤ c) && decide (c ≤ 'z')) ||
  (decide ('0' ≤ c) && decide (c ≤ '9')) || decide (c = '_')

/-- Modelled from the spec: a closed list of reserved SQL words that a
sanitized label must not collide with. -/
def reservedWords : List String :=
  ["select", "from", "where", "table", "group", "order", "by",
   "index", "join", "union", "values", "limit"]

/-- Modelled from the spec: lowercase the raw label and replace every
character outside the identifier grammar with an underscore. -/
def cleanedChars (raw : String) : List Char :=
  raw.data.map (fun c =>
    let l := c.toLower
    if isIdentChar l then l else '_')

/-- Modelled from the spec: the base identifier for a raw label, before
collision disambiguation.  A label that becomes empty, collides with a
reserved word, or starts with a digit receives the `col_` front marker
so that the result starts with a letter or underscore. -/
def baseIdentifier (raw : String) : String :=
  let cl := cleanedChars raw
  if cl = [] ∨ String.mk cl ∈ reservedWords ∨
      (cl.head?.elim false (fun c => decide ('0' ≤ c) && decide (c ≤ '9'))) = true then
    "col_" ++ String.mk cl
  else String.mk cl

/-- Modelled from the spec: the candidate identifier obtained by
appending the numeric suffix `k` to a base identifier. -/
def numberedName (base : String) (k : Nat) : String :=
  base ++ "_" ++ Nat.repr k

/-- Modelled from the spec: try the numeric suffixes `k`, `k+1`, ... in
order and return the first candidate not already used; the fuel bounds
the search and is chosen large enough that a free candidate is always
reached. -/
def disambigAux (base : String) (used : List String) : Nat → Nat → String
  | 0, k => numberedName base k
  | fuel + 1, k =>
    if numberedName base k ∈ used then disambigAux base used fuel (k + 1)
    else numberedName base k

/-- Modelled from the spec: `sanitize(rawLabel, usedNames)` from section
4.1.  A base identifier already present in `usedNames` is disambiguated
with the incrementing numeric suffix starting at `_2`. -/
def sanitize (rawLabel : String) (usedNames : List String) : String :=
  let base := baseIdentifier rawLabel
  if base ∈ usedNames then disambigAux base usedNames (usedNames.length + 1) 2
  else base

/-- Modelled from the spec: sanitize a whole header row left to right,
each result joining the used-name set seen by the later labels. -/
def sanitizeColumnsAux (used : List String) : List String → List String
  | [] => []
  | l :: ls =>
    let s := sanitize l used
    s :: sanitizeColumnsAux (used ++ [s]) ls

/-- Modelled from the spec: sanitize the column labels of one table
against a fresh used-name set. -/
def sanitizeColumns (labels : List String) : List String :=
  sanitizeColumnsAux [] labels

/-- Decidable form of the identifier grammar of section 4.1: nonempty,
every character a lowercase letter, digit or underscore, and the first
character a letter or underscore. -/
def isGoodIdent (s : String) : Bool :=
  match s.data with
  | [] => false
  | c :: cs =>
    ((decide ('a' ≤ c) && decide (c ≤ 'z')) || decide (c = '_')) &&
      (c :: cs).all isIdentChar

/-! ### SchemaCatalog and QueryValidator

Modelled from the spec: the server-side SchemaCatalog and QueryValidator
components are not part of the visible client sources.  Section 4.4 of
the design document describes `validate(sqlText, allowedTableName)`
over the parsed statement tree: reject unless exactly one statement is
present, its top-level kind is in the select family, every table
reference resolves to the scoped table, every column reference resolves
to a column of that table, and no disallowed construct appears. -/

/-- Modelled from the spec: catalog record for one ingested table. -/
structure TableDescriptor where
  name : String
  columns : List String
  rowCount : Nat
  sourceFilename : String
  deriving Repr, DecidableEq

/-- Modelled from the spec: the authoritative registry of ingested
tables. -/
structure SchemaCatalog where
  tables : List TableDescriptor
  deriving Repr, DecidableEq

/-- Modelled from the spec: look a descriptor up by table name. -/
def SchemaCatalog.get (cat : SchemaCatalog) (tableName : String) :
    Option TableDescriptor :=
  cat.tables.find? (fun d => d.name = tableName)

/-- Modelled from the spec: the columns recorded for a table name, or
the empty list when the name is not cataloged. -/
def SchemaCatalog.columnsOf (cat : SchemaCatalog) (tableName : String) : List String :=
  (cat.get tableName).elim [] TableDescriptor.columns

/-- Modelled from the spec: the top-level kind of a parsed SQL
statement, a closed tagged enumeration. -/
inductive StmtKind where
  | select
  | insert
  | update
  | delete
  | drop
  | alter
  | createTable
  | pragma
  | attachDb
  | transactionControl
  deriving Repr, DecidableEq

/-- Modelled from the spec: DML and DDL kinds, rejected as write
operations. -/
def StmtKind.isWriteKind : StmtKind → Bool
  | .insert | .update | .delete | .drop | .alter | .createTable => true
  | _ => false

/-- Modelled from the spec: one parsed top-level SQL statement with the
names it references and the non-data-returning constructs it uses. -/
structure Stmt where
  kind : StmtKind
  tableRefs : List String
  columnRefs : List String
  fileConstructs : List String
  deriving Repr, DecidableEq

/-- Modelled from the spec: the closed enumeration of rejection
reasons. -/
inductive RejectionReason where
  | MultiStatement
  | WriteOperation
  | UnknownTable
  | UnknownColumn
  | DisallowedConstruct
  | SyntaxError
  deriving Repr, DecidableEq

/-- Modelled from the spec: the default result row cap carried by a
validated query. -/
def defaultRowCap : Nat := 100

/-- Modelled from the spec: the capability token produced only by the
validator, carrying the original text, the parsed statement and a row
cap. -/
structure ValidatedQuery where
  sqlText : String
  stmt : Stmt
  rowCap : Nat
  deriving Repr, DecidableEq

/-- Modelled from the spec: `validate(sqlText, allowedTableName)` of
section 4.4 over the parsed statement list (`none` when the text failed
to parse), checking the conditions in the order the spec lists them. -/
def validate (parsed : Option (List Stmt)) (sqlText : String)
    (allowedTableName : String) (cat : SchemaCatalog) :
    Except RejectionReason ValidatedQuery :=
  match parsed with
  | none => .error .SyntaxError
  | some [] => .error .SyntaxError
  | some (s :: rest) =>
    if rest ≠ [] then .error .MultiStatement
    else if s.kind ≠ .select then
      (if s.kind.isWriteKind then .error .WriteOperation
       else .error .DisallowedConstruct)
    else if s.tableRefs.any (fun t => t ≠ allowedTableName) then .error .UnknownTable
    else if s.columnRefs.any
        (fun c => c ∉ cat.columnsOf allowedTableName) then .error .UnknownColumn
    else if s.fileConstructs ≠ [] then .error .DisallowedConstruct
    else .ok ⟨sqlText, s, defaultRowCap⟩

/-- Modelled from the spec: the result of a successfully executed
read-only query. -/
structure QueryResult where
  columns : List String
  rows : List (List String)
  deriving Repr, DecidableEq

/-- Modelled from the spec: the `execute_select_query` tool of section
4.5.  It runs the text through the validator and only a validated query
ever reaches the storage engine `run`; the second component records
exactly the validated queries that were executed. -/
def executeSelectQuery (parsed : Option (List Stmt)) (sqlText : String)
    (allowedTableName : String) (cat : SchemaCatalog)
    (run : ValidatedQuery → QueryResult) :
    Except RejectionReason QueryResult × List ValidatedQuery :=
  match validate parsed sqlText allowedTableName cat with
  | .error r => (.error r, [])
  | .ok vq => (.ok (run vq), [vq])

/-! ### IngestionPipeline

Modelled from the spec: the server-side IngestionPipeline component is
not part of the visible client sources.  Section 4.2 of the design
document gives `ingest(fileBytes, fileKind)`: decode, reject empty or
oversized input, sanitize the labels, derive a table name from the
filename disambiguated against the catalog, create and populate the
physical table in one transaction, and register the descriptor only
after the transaction commits. -/

/-- Modelled from the spec: the closed enumeration of ingestion errors,
extended with a tag for a storage-layer failure that rolls the
transaction back. -/
inductive IngestError where
  | Empty
  | TooWide
  | TooManyRows
  | UnsupportedFormat
  | DecodeFailure
  | PersistenceFailure
  deriving Repr, DecidableEq

/-- Modelled from the spec: configured size limits for uploads. -/
structure IngestConfig where
  maxCols : Nat
  maxRows : Nat
  deriving Repr, DecidableEq

/-- Modelled from the spec: a physical table of the relational store,
its name, its columns and its fully inserted rows. -/
structure PhysTable where
  name : String
  columns : List String
  rows : List (List String)
  deriving Repr, DecidableEq

/-- Modelled from the spec: the state ingestion acts on, the physical
store and the schema catalog. -/
structure IngestState where
  store : List PhysTable
  catalog : SchemaCatalog
  deriving Repr, DecidableEq

/-- Modelled from the spec: `ingest` of section 4.2.  The decoded file
is the header labels plus the data rows (`none` when decoding failed);
`txCommits` is the storage-engine verdict on the single transaction
holding the table creation and the bulk insert.  On any failure the
state is returned unchanged; the descriptor is registered only after
the transaction commits. -/
def ingest (cfg : IngestConfig) (filename : String)
    (decoded : Option (List String × List (List String))) (txCommits : Bool)
    (st : IngestState) : Except IngestError TableDescriptor × IngestState :=
  match decoded with
  | none => (.error .DecodeFailure, st)
  | some (labels, rows) =>
    if rows = [] then (.error .Empty, st)
    else if cfg.maxCols < labels.length then (.error .TooWide, st)
    else if cfg.maxRows < rows.length then (.error .TooManyRows, st)
    else
      let cols := sanitizeColumns labels
      let tname := sanitize filename (st.catalog.tables.map TableDescriptor.name)
      if txCommits then
        let desc : TableDescriptor := ⟨tname, cols, rows.length, filename⟩
        (.ok desc,
          ⟨st.store ++ [⟨tname, cols, rows⟩],
           ⟨st.catalog.tables ++ [desc]⟩⟩)
      else (.error .PersistenceFailure, st)

/-! ### ConversationOrchestrator

Modelled from the spec: the server-side ConversationOrchestrator is not
part of the visible client sources.  Section 4.6 of the design document
describes the bounded tool-calling loop: call the model, execute any
requested tool calls, feed the results back, and force termination into
a degraded answer at a hard iteration cap. -/

/-- Modelled from the spec: one turn of the conversation state. -/
inductive Turn where
  | user (text : String)
  | assistant (text : String)
  | toolResult (text : String)
  deriving Repr, DecidableEq

/-- Modelled from the spec: a model-issued request to invoke one of the
two exposed tools. -/
structure ToolCall where
  toolName : String
  arguments : String
  deriving Repr, DecidableEq

/-- Modelled from the spec: one response of the model endpoint, either
free text or a list of function calls. -/
structure ModelResponse where
  text : String
  toolCalls : List ToolCall
  deriving Repr, DecidableEq

/-- Modelled from the spec: the hard iteration cap, a small constant in
the 5 to 8 range. -/
def maxIterations : Nat := 6

/-- Modelled from the spec: the degraded terminal answer produced when
the iteration cap is reached. -/
def degradedAnswer : String := "unable to complete"

/-- Modelled from the spec: the bounded orchestration loop of section
4.6, structurally recursive on the remaining iteration budget.  It
returns the final answer together with the number of model round trips
made. -/
def orchestrate (model : List Turn → ModelResponse) (execTool : ToolCall → String) :
    Nat → List Turn → String × Nat
  | 0, _ => (degradedAnswer, 0)
  | budget + 1, hist =>
    let resp := model hist
    if resp.toolCalls = [] then (resp.text, 1)
    else
      let hist' := hist ++ resp.toolCalls.map (fun tc => Turn.toolResult (execTool tc))
      let r := orchestrate model execTool budget hist'
      (r.1, r.2 + 1)

/-- Modelled from the spec: `handleMessage` appends the user turn and
runs the loop under the hard iteration cap. -/
def handleMessage (model : List Turn → ModelResponse) (execTool : ToolCall → String)
    (hist : List Turn) (userMsg : String) : String × Nat :=
  orchestrate model execTool maxIterations (hist ++ [Turn.user userMsg])

/-! ### Upload client

Embedding of `client/src/components/FileUploadDropZone.tsx` and of the
API helpers of `src/api/api.ts`: file validation, the upload handler,
and the request bodies sent to the backend. -/

/-- Suffix test on strings, the semantics of the JavaScript
`String.prototype.endsWith` used by the dropzone. -/
def strEndsWith (s post : String) : Bool :=
  post.data.isSuffixOf s.data

/-- A browser file as the dropzone sees it: its name and its MIME
type. -/
structure UploadedFile where
  name : String
  type : String
  deriving Repr, DecidableEq

/-- MIME types accepted by `isValidFile` in FileUploadDropZone.tsx. -/
def validTypes : List String :=
  ["text/csv",
   "application/vnd.ms-excel",
   "application/vnd.openxmlformats-officedocument.spreadsheetml.sheet"]

/-- `isValidFile` from FileUploadDropZone.tsx: accept when the MIME type
is listed or the name ends with .csv, .xlsx or .xls. -/
def isValidFile (file : UploadedFile) : Bool :=
  validTypes.contains file.type ||
    strEndsWith file.name ".csv" ||
    strEndsWith file.name ".xlsx" ||
    strEndsWith file.name ".xls"

/-- Component state of FileUploadDropZone.tsx. -/
structure UploadState where
  isDragging : Bool
  selectedFile : Option UploadedFile
  isUploading : Bool
  error : Option String
  deriving Repr, DecidableEq

/-- Error message set by the dropzone when a file fails validation. -/
def invalidFileMessage : String := "Please upload a valid CSV or Excel file"

/-- Response shape of the upload endpoint, from `uploadFile` in
api.ts. -/
structure UploadResponse where
  table_name : String
  rows_count : Nat
  columns : List String
  deriving Repr, DecidableEq

/-- `handleUpload` from FileUploadDropZone.tsx, as a function of the
settled result of `uploadFile(file)`.  The second component is the
`onFileSelect` invocation: the file together with the table name the
backend returned, present exactly when the upload resolved. -/
def handleUpload (file : UploadedFile) (uploadResult : Except String UploadResponse)
    (st : UploadState) : UploadState × Option (UploadedFile × String) :=
  match uploadResult with
  | .ok response =>
    ({ st with isUploading := false, error := none }, some (file, response.table_name))
  | .error msg =>
    ({ st with isUploading := false, error := some msg, selectedFile := none }, none)

/-- `handleDrop` from FileUploadDropZone.tsx, as a function of the
dropped file list.  The second component is the file passed on to
`handleUpload`, that is, the upload request being issued. -/
def handleDrop (files : List UploadedFile) (st : UploadState) :
    UploadState × Option UploadedFile :=
  let st1 := { st with isDragging := false }
  match files with
  | [] => (st1, none)
  | file :: _ =>
    if isValidFile file then
      ({ st1 with selectedFile := some file, error := none }, some file)
    else
      ({ st1 with error := some invalidFileMessage }, none)

/-- `handleFileChange` from FileUploadDropZone.tsx, as a function of the
file-input selection.  The second component is the file passed on to
`handleUpload`. -/
def handleFileChange (files : List UploadedFile) (st : UploadState) :
    UploadState × Option UploadedFile :=
  match files with
  | [] => (st, none)
  | file :: _ =>
    if isValidFile file then
      ({ st with selectedFile := some file, error := none }, some file)
    else
      ({ st with error := some invalidFileMessage, selectedFile := none }, none)

/-- Component state of AIChat.tsx. -/
structure AIChatState where
  selectedFile : Option UploadedFile
  tableName : Option String
  deriving Repr, DecidableEq

/-- `handleFileSelect` from AIChat.tsx: store the uploaded file and the
table name reported by the backend. -/
def handleFileSelect (file : UploadedFile) (tableNameFromBackend : String)
    (st : AIChatState) : AIChatState :=
  { st with selectedFile := some file, tableName := some tableNameFromBackend }

/-- Request issued by `sendChatMessage` in api.ts. -/
structure ChatApiRequest where
  url : String
  question : String
  table_name : String
  deriving Repr, DecidableEq

/-- The request `sendChatMessage(question, tableName)` posts, from
api.ts: the chat endpoint with the question and the table name in the
body. -/
def sendChatMessageRequest (question tableName : String) : ChatApiRequest :=
  { url := "/api/v1/chat/", question := question, table_name := tableName }

/-! ### Chat client

Embedding of `ChatInterfaceWithBackend` and its `handleSendMessage`
handler. -/

/-- Role tag of a chat message. -/
inductive Role where
  | user
  | assistant
  deriving Repr, DecidableEq

/-- A chat message as kept in the component message list. -/
structure Message where
  role : Role
  content : String
  deriving Repr, DecidableEq

/-- Component state of ChatInterfaceWithBackend. -/
structure ChatState where
  messages : List Message
  inputValue : String
  isLoading : Bool
  error : Option String
  deriving Repr, DecidableEq

/-- Request body `handleSendMessage` posts to the ai_chat endpoint. -/
structure AiChatRequest where
  url : String
  file_id : String
  message : String
  deriving Repr, DecidableEq

/-- Outcome of the `fetch` round trip made by `handleSendMessage`: the
request may fail on the network, return a non-ok status, fail to decode
as JSON, or succeed with an optional `response` field. -/
inductive FetchOutcome where
  | networkError (msg : String)
  | httpNotOk
  | decodeError (msg : String)
  | ok (response : Option String)
  deriving Repr, DecidableEq

/-- Whitespace trimming with the semantics of the JavaScript
`String.prototype.trim` used in the input guard. -/
def jsTrim (s : String) : String :=
  String.mk (((s.data.dropWhile Char.isWhitespace).reverse.dropWhile
    Char.isWhitespace).reverse)

/-- Fallback text used when the decoded payload carries no truthy
`response` field. -/
def fallbackAnswer : String := "I couldn\x27t process your request"

/-- Content of the assistant message in the success branch:
`data.response || fallback`, where the empty string is falsy. -/
def okContent : Option String → String
  | some s => if s = "" then fallbackAnswer else s
  | none => fallbackAnswer

/-- Degraded assistant reply produced in the catch branch. -/
def errorReply (m : String) : String :=
  "Sorry, I encountered an error: " ++ m ++ ". Please try again."

/-- `handleSendMessage` from ChatInterfaceWithBackend, as a function of
the settled fetch outcome.  The second component is the request posted
to the backend, `none` when the input guard returns early. -/
def handleSendMessage (fileId : Option String) (outcome : FetchOutcome)
    (st : ChatState) : ChatState × Option AiChatRequest :=
  match fileId with
  | none => (st, none)
  | some fid =>
    if jsTrim st.inputValue = "" then (st, none)
    else
      let userMessage : Message := ⟨.user, st.inputValue⟩
      let req : AiChatRequest := ⟨"/api/v1/endpoints/ai_chat", fid, st.inputValue⟩
      let errCase := fun (m : String) =>
        (ChatState.mk (st.messages ++ [userMessage, ⟨.assistant, errorReply m⟩])
          "" false (some m), some req)
      match outcome with
      | .networkError m => errCase m
      | .httpNotOk => errCase "Failed to get response from AI"
      | .decodeError m => errCase m
      | .ok r =>
        (ChatState.mk (st.messages ++ [userMessage, ⟨.assistant, okContent r⟩])
          "" false none, some req)

/-! ### Concrete fixtures

Small concrete values used by the witness theorems below. -/

/-- A single-statement select against the foreign table other_table. -/
def stmtSelectOther : Stmt :=
  { kind := .select, tableRefs := ["other_table"], columnRefs := [], fileConstructs := [] }

/-- A single-statement select scoped to sales_1. -/
def stmtSelectSales : Stmt :=
  { kind := .select, tableRefs := ["sales_1"], columnRefs := ["region"],
    fileConstructs := [] }

/-- A drop statement against the scoped table. -/
def stmtDropSales : Stmt :=
  { kind := .drop, tableRefs := ["sales_1"], columnRefs := [], fileConstructs := [] }

/-- A catalog holding both the scoped table and the foreign table, so
that the foreign table genuinely exists in the catalog. -/
def twoTableCatalog : SchemaCatalog :=
  ⟨[{ name := "sales_1", columns := ["region", "amount"], rowCount := 3,
      sourceFilename := "sales.csv" },
    { name := "other_table", columns := ["secret"], rowCount := 1,
      sourceFilename := "other.csv" }]⟩

/-- A model endpoint that answers every request with a tool call and
never produces a final answer. -/
def alwaysToolModel : List Turn → ModelResponse :=
  fun _ => { text := "", toolCalls := [⟨"execute_select_query", "SELECT 1"⟩] }

/-- A trivial tool executor for the orchestrator witness. -/
def constExecTool : ToolCall → String := fun _ => "ok"

/-- A concrete file fixture for the upload witnesses. -/
def csvFile : UploadedFile := { name := "sales.csv", type := "text/csv" }

/-- A concrete invalid file fixture: wrong MIME type and wrong
extension. -/
def pdfFile : UploadedFile := { name := "report.pdf", type := "application/pdf" }

/-- A concrete upload-component state fixture. -/
def uploadState0 : UploadState :=
  { isDragging := true, selectedFile := none, isUploading := false, error := none }

/-- A concrete AIChat-component state fixture. -/
def aiChatState0 : AIChatState := { selectedFile := none, tableName := none }

/-- A concrete upload response fixture. -/
def uploadResponse0 : UploadResponse :=
  { table_name := "sales_1", rows_count := 3, columns := ["region", "amount"] }

/-- A concrete chat-component state fixture with a nonblank input. -/
def chatState0 : ChatState :=
  { messages := [⟨.assistant, "ready"⟩], inputValue := "what is the total",
    isLoading := false, error := none }

/-- A concrete chat-component state fixture whose input is only
whitespace. -/
def chatStateBlank : ChatState :=
  { messages := [⟨.assistant, "ready"⟩], inputValue := "   ",
    isLoading := false, error := none }

/-! ### Theorems -/

/-! ### Decimal representation of naturals

Facts about the decimal printer used for numeric disambiguation
suffixes.  These are general lemmas about the standard library printer
`Nat.repr`. -/

theorem toDigitsCore_append (fuel n : Nat) (ds : List Char) :
    Nat.toDigitsCore 10 fuel n ds = Nat.toDigitsCore 10 fuel n [] ++ ds := by
  induction fuel generalizing n ds with
  | zero => simp [Nat.toDigitsCore]
  | succ f ih =>
    simp only [Nat.toDigitsCore]
    by_cases h : n / 10 = 0
    · simp [h]
    · simp only [h, if_false]
      rw [ih (n / 10) (Nat.digitChar (n % 10) :: ds), ih (n / 10) [Nat.digitChar (n % 10)]]
      simp

theorem toDigitsCore_fuel : ∀ n f, n < f →
    Nat.toDigitsCore 10 f n [] = Nat.toDigitsCore 10 (n + 1) n [] := by
  intro n
  induction n using Nat.strong_induction_on with
  | _ n ih =>
    intro f hf
    match f, hf with
    | f' + 1, _ =>
      simp only [Nat.toDigitsCore]
      by_cases h : n / 10 = 0
      · simp [h]
      · simp only [h, if_false]
        have hn : 0 < n := by
          rcases Nat.eq_zero_or_pos n with h0 | h0
          · exact absurd (by simp [h0]) h
          · exact h0
        have hdiv : n / 10 < n := Nat.div_lt_self hn (by decide)
        have h1 : n / 10 < f' := by omega
        rw [toDigitsCore_append f' (n / 10), toDigitsCore_append n (n / 10)]
        rw [ih (n / 10) hdiv f' h1, ih (n / 10) hdiv n (by omega)]

theorem toDigits_eq (n : Nat) :
    Nat.toDigits 10 n =
      if n < 10 then [Nat.digitChar n]
      else Nat.toDigits 10 (n / 10) ++ [Nat.digitChar (n % 10)] := by
  by_cases h : n < 10
  · have h10 : n / 10 = 0 := Nat.div_eq_of_lt h
    simp [Nat.toDigits, Nat.toDigitsCore, h10, h, Nat.mod_eq_of_lt h]
  · have h10 : n / 10 ≠ 0 := by
      intro h0
      exact h (by omega)
    have hn : 0 < n := by omega
    simp only [Nat.toDigits, Nat.toDigitsCore, h10, if_false, if_neg h]
    rw [toDigitsCore_append]
    congr 1
    exact toDigitsCore_fuel (n / 10) n (Nat.div_lt_self hn (by decide))

theorem digitChar_inj :
    ∀ a < 10, ∀ b < 10, Nat.digitChar a = Nat.digitChar b → a = b := by decide

theorem toDigits_ne_nil (n : Nat) : Nat.toDigits 10 n ≠ [] := by
  rw [toDigits_eq]
  by_cases h : n < 10 <;> simp [h]

theorem toDigits_injective : ∀ m n : Nat, Nat.toDigits 10 m = Nat.toDigits 10 n → m = n := by
  intro m
  induction m using Nat.strong_induction_on with
  | _ m ih =>
    intro n h
    rw [toDigits_eq m, toDigits_eq n] at h
    by_cases hm : m < 10 <;> by_cases hn : n < 10
    · rw [if_pos hm, if_pos hn] at h
      simp only [List.cons.injEq, and_true] at h
      exact digitChar_inj m hm n hn h
    · rw [if_pos hm, if_neg hn] at h
      have hlen := congrArg List.length h
      simp only [List.length_append, List.length_cons, List.length_nil] at hlen
      have h0 : (Nat.toDigits 10 (n / 10)).length = 0 := by omega
      exact absurd (List.eq_nil_of_length_eq_zero h0) (toDigits_ne_nil _)
    · rw [if_neg hm, if_pos hn] at h
      have hlen := congrArg List.length h
      simp only [List.length_append, List.length_cons, List.length_nil] at hlen
      have h0 : (Nat.toDigits 10 (m / 10)).length = 0 := by omega
      exact absurd (List.eq_nil_of_length_eq_zero h0) (toDigits_ne_nil _)
    · rw [if_neg hm, if_neg hn] at h
      have hrev := congrArg List.reverse h
      simp only [List.reverse_append, List.reverse_cons, List.reverse_nil,
        List.nil_append, List.singleton_append, List.cons.injEq] at hrev
      obtain ⟨hd, htl⟩ := hrev
      have e1 : m % 10 = n % 10 :=
        digitChar_inj _ (Nat.mod_lt _ (by decide)) _ (Nat.mod_lt _ (by decide)) hd
      have hmn : 0 < m := by omega
      have e2 : m / 10 = n / 10 :=
        ih (m / 10) (Nat.div_lt_self hmn (by decide)) (n / 10)
          (List.reverse_injective htl)
      omega

theorem repr_injective : ∀ m n : Nat, Nat.repr m = Nat.repr n → m = n := by
  intro m n h
  exact toDigits_injective m n (congrArg String.data h)

theorem toDigits_all_digit :
    ∀ n : Nat, ∀ c ∈ Nat.toDigits 10 n, ('0' ≤ c ∧ c ≤ '9') := by
  intro n
  induction n using Nat.strong_induction_on with
  | _ n ih =>
    intro c hc
    rw [toDigits_eq] at hc
    have hsmall : ∀ a < 10, ('0' ≤ Nat.digitChar a ∧ Nat.digitChar a ≤ '9') := by decide
    by_cases h : n < 10
    · rw [if_pos h] at hc
      have : c = Nat.digitChar n := List.mem_singleton.mp hc
      exact this ▸ hsmall n h
    · rw [if_neg h] at hc
      rcases List.mem_append.mp hc with hc | hc
      · have hn : 0 < n := by omega
        exact ih (n / 10) (Nat.div_lt_self hn (by decide)) c hc
      · have : c = Nat.digitChar (n % 10) := List.mem_singleton.mp hc
        exact this ▸ hsmall (n % 10) (Nat.mod_lt _ (by decide))

theorem append_data (a b : String) : (a ++ b).data = a.data ++ b.data := by
  cases a; cases b; rfl

theorem numberedName_inj (base : String) (j k : Nat)
    (h : numberedName base j = numberedName base k) : j = k := by
  apply repr_injective
  have hd := congrArg String.data h
  simp only [numberedName, append_data, List.append_assoc] at hd
  have hd2 : (Nat.repr j).data = (Nat.repr k).data :=
    List.append_cancel_left (List.append_cancel_left hd)
  cases hrj : Nat.repr j with
  | mk dj =>
    cases hrk : Nat.repr k with
    | mk dk =>
      rw [hrj, hrk] at hd2
      simpa [hrj, hrk] using congrArg String.mk hd2

theorem exists_free_suffix (base : String) (used : List String) (k : Nat) :
    ∃ j, k ≤ j ∧ j < k + used.length + 1 ∧ numberedName base j ∉ used := by
  by_contra hc
  push_neg at hc
  set l : List String :=
    (List.range (used.length + 1)).map (fun i => numberedName base (k + i)) with hl
  have hnd : l.Nodup := by
    refine List.Nodup.map ?_ (List.nodup_range _)
    intro a b hab
    have := numberedName_inj base (k + a) (k + b) hab
    omega
  have hsub : l ⊆ used := by
    intro x hx
    rw [hl] at hx
    rcases List.mem_map.mp hx with ⟨i, hi, rfl⟩
    have hi2 : i < used.length + 1 := List.mem_range.mp hi
    exact hc (k + i) (by omega) (by omega)
  have hle := (hnd.subperm hsub).length_le
  rw [hl] at hle
  simp at hle

theorem disambigAux_not_mem (base : String) (used : List String) :
    ∀ fuel k, (∃ j, k ≤ j ∧ j < k + fuel + 1 ∧ numberedName base j ∉ used) →
      disambigAux base used fuel k ∉ used := by
  intro fuel
  induction fuel with
  | zero =>
    intro k ⟨j, h1, h2, h3⟩
    have : j = k := by omega
    simp only [disambigAux]
    exact this ▸ h3
  | succ f ih =>
    intro k ⟨j, h1, h2, h3⟩
    simp only [disambigAux]
    by_cases hk : numberedName base k ∈ used
    · rw [if_pos hk]
      apply ih
      have hjk : j ≠ k := fun e => h3 (e ▸ hk)
      exact ⟨j, by omega, by omega, h3⟩
    · rw [if_neg hk]
      exact hk

theorem sanitize_not_mem (raw : String) (used : List String) :
    sanitize raw used ∉ used := by
  unfold sanitize
  by_cases h : baseIdentifier raw ∈ used
  · rw [if_pos h]
    exact disambigAux_not_mem _ _ _ 2 (by
      rcases exists_free_suffix (baseIdentifier raw) used 2 with ⟨j, h1, h2, h3⟩
      exact ⟨j, h1, by omega, h3⟩)
  · rw [if_neg h]
    exact h

theorem isIdentChar_of_digit (c : Char) (h1 : '0' ≤ c) (h2 : c ≤ '9') :
    isIdentChar c = true := by
  simp [isIdentChar, h1, h2]

theorem cleanedChars_all (raw : String) :
    ∀ c ∈ cleanedChars raw, isIdentChar c = true := by
  intro c hc
  rcases List.mem_map.mp hc with ⟨a, _, rfl⟩
  show isIdentChar (if isIdentChar a.toLower = true then a.toLower else '_') = true
  by_cases h : isIdentChar a.toLower = true
  · rw [if_pos h]; exact h
  · rw [if_neg h]; decide

theorem isGoodIdent_data (s : String) (c : Char) (cs : List Char)
    (h : s.data = c :: cs) :
    isGoodIdent s =
      ((decide ('a' ≤ c) && decide (c ≤ 'z') || decide (c = '_')) &&
        (c :: cs).all isIdentChar) := by
  cases s with
  | mk d => cases h; rfl

theorem isGoodIdent_head (s : String) (c : Char) (cs : List Char)
    (hdat : s.data = c :: cs)
    (hhead : (decide ('a' ≤ c) && decide (c ≤ 'z') || decide (c = '_')) = true)
    (hall : ∀ x ∈ c :: cs, isIdentChar x = true) :
    isGoodIdent s = true := by
  rw [isGoodIdent_data s c cs hdat]
  simp only [Bool.and_eq_true, List.all_eq_true]
  exact ⟨hhead, hall⟩

theorem mem_data_baseIdentifier (raw : String) :
    ∀ c ∈ (baseIdentifier raw).data, isIdentChar c = true := by
  intro c hc
  unfold baseIdentifier at hc
  by_cases h : cleanedChars raw = [] ∨ String.mk (cleanedChars raw) ∈ reservedWords ∨
      ((cleanedChars raw).head?.elim false
        (fun c => decide ('0' ≤ c) && decide (c ≤ '9'))) = true
  · rw [if_pos h] at hc
    rw [append_data] at hc
    rcases List.mem_append.mp hc with hc | hc
    · have hcol : ("col_" : String).data = ['c', 'o', 'l', '_'] := rfl
      rw [hcol] at hc
      rcases List.mem_cons.mp hc with rfl | hc
      · decide
      rcases List.mem_cons.mp hc with rfl | hc
      · decide
      rcases List.mem_cons.mp hc with rfl | hc
      · decide
      rcases List.mem_cons.mp hc with rfl | hc
      · decide
      exact absurd hc (List.not_mem_nil c)
    · exact cleanedChars_all raw c hc
  · rw [if_neg h] at hc
    exact cleanedChars_all raw c hc

theorem data_baseIdentifier_marked (raw : String)
    (h : cleanedChars raw = [] ∨ String.mk (cleanedChars raw) ∈ reservedWords ∨
      ((cleanedChars raw).head?.elim false
        (fun c => decide ('0' ≤ c) && decide (c ≤ '9'))) = true) :
    (baseIdentifier raw).data = 'c' :: 'o' :: 'l' :: '_' :: cleanedChars raw := by
  unfold baseIdentifier
  rw [if_pos h, append_data]
  rfl

theorem isGoodIdent_baseIdentifier (raw : String) :
    isGoodIdent (baseIdentifier raw) = true := by
  have hall := mem_data_baseIdentifier raw
  by_cases h : cleanedChars raw = [] ∨ String.mk (cleanedChars raw) ∈ reservedWords ∨
      ((cleanedChars raw).head?.elim false
        (fun c => decide ('0' ≤ c) && decide (c ≤ '9'))) = true
  · refine isGoodIdent_head _ 'c' _ (data_baseIdentifier_marked raw h) (by decide) ?_
    rw [data_baseIdentifier_marked raw h] at hall
    exact hall
  · have hbd : (baseIdentifier raw).data = cleanedChars raw := by
      unfold baseIdentifier
      rw [if_neg h]
    push_neg at h
    obtain ⟨hne, _, hdig⟩ := h
    cases hcl : (cleanedChars raw) with
    | nil => exact absurd hcl hne
    | cons c cs =>
      refine isGoodIdent_head _ c cs (by rw [hbd, hcl]) ?_ ?_
      · have hc : isIdentChar c = true := by
          rw [hbd, hcl] at hall
          exact hall c (List.mem_cons_self c cs)
        have hnd : (decide ('0' ≤ c) && decide (c ≤ '9')) ≠ true := by
          rw [hcl] at hdig
          simpa [List.head?] using hdig
        simp only [isIdentChar, Bool.or_eq_true, Bool.and_eq_true,
          decide_eq_true_eq] at hc
        simp only [ne_eq, Bool.and_eq_true, decide_eq_true_eq, not_and] at hnd
        simp only [Bool.or_eq_true, Bool.and_eq_true, decide_eq_true_eq]
        rcases hc with (hc | hc) | hc
        · exact Or.inl hc
        · exact absurd hc.2 (hnd hc.1)
        · exact Or.inr hc
      · rw [hbd, hcl] at hall
        exact hall

theorem disambigAux_eq_numbered (base : String) (used : List String) :
    ∀ fuel k, ∃ j, k ≤ j ∧ disambigAux base used fuel k = numberedName base j := by
  intro fuel
  induction fuel with
  | zero => exact fun k => ⟨k, Nat.le_refl k, rfl⟩
  | succ f ih =>
    intro k
    simp only [disambigAux]
    by_cases hk : numberedName base k ∈ used
    · rw [if_pos hk]
      rcases ih (k + 1) with ⟨j, h1, h2⟩
      exact ⟨j, by omega, h2⟩
    · rw [if_neg hk]
      exact ⟨k, Nat.le_refl k, rfl⟩

theorem isGoodIdent_numberedName (base : String) (k : Nat)
    (h : isGoodIdent base = true) : isGoodIdent (numberedName base k) = true := by
  cases hb : base.data with
  | nil =>
    have : isGoodIdent base = false := by
      cases base with
      | mk d => cases hb; rfl
    rw [this] at h
    exact absurd h (by decide)
  | cons c cs =>
    rw [isGoodIdent_data base c cs hb] at h
    simp only [Bool.and_eq_true, List.all_eq_true] at h
    have hdat : (numberedName base k).data = c :: (cs ++ '_' :: (Nat.repr k).data) := by
      show (base ++ "_" ++ Nat.repr k).data = _
      rw [append_data, append_data, hb, List.append_assoc]
      rfl
    refine isGoodIdent_head _ c _ hdat h.1 ?_
    intro x hx
    rcases List.mem_cons.mp hx with rfl | hx
    · exact h.2 x (List.mem_cons_self ..)
    · rcases List.mem_append.mp hx with hx | hx
      · exact h.2 x (List.mem_cons_of_mem _ hx)
      · rcases List.mem_cons.mp hx with rfl | hx
        · decide
        · rcases toDigits_all_digit k x hx with ⟨h1, h2⟩
          exact isIdentChar_of_digit x h1 h2

theorem isGoodIdent_sanitize (raw : String) (used : List String) :
    isGoodIdent (sanitize raw used) = true := by
  unfold sanitize
  by_cases h : baseIdentifier raw ∈ used
  · rw [if_pos h]
    rcases disambigAux_eq_numbered (baseIdentifier raw) used (used.length + 1) 2 with
      ⟨j, _, h2⟩
    rw [h2]
    exact isGoodIdent_numberedName _ j (isGoodIdent_baseIdentifier raw)
  · rw [if_neg h]
    exact isGoodIdent_baseIdentifier raw

theorem sanitizeColumnsAux_nodup (labels : List String) :
    ∀ used, (sanitizeColumnsAux used labels).Nodup ∧
      ∀ s ∈ sanitizeColumnsAux used labels, s ∉ used := by
  induction labels with
  | nil => exact fun used => ⟨List.nodup_nil, by simp [sanitizeColumnsAux]⟩
  | cons l ls ih =>
    intro used
    simp only [sanitizeColumnsAux]
    rcases ih (used ++ [sanitize l used]) with ⟨hnd, hmem⟩
    constructor
    · refine List.nodup_cons.mpr ⟨?_, hnd⟩
      intro hc
      exact hmem _ hc (List.mem_append.mpr (Or.inr (List.mem_singleton.mpr rfl)))
    · intro s hs
      rcases List.mem_cons.mp hs with rfl | hs
      · exact sanitize_not_mem l used
      · intro hc
        exact hmem s hs (List.mem_append.mpr (Or.inl hc))

theorem sanitizeColumns_nodup (labels : List String) :
    (sanitizeColumns labels).Nodup :=
  (sanitizeColumnsAux_nodup labels []).1

theorem orchestrate_roundTrips_le (model : List Turn → ModelResponse)
    (execTool : ToolCall → String) :
    ∀ budget hist, (orchestrate model execTool budget hist).2 ≤ budget := by
  intro budget
  induction budget with
  | zero => intro hist; simp [orchestrate]
  | succ b ih =>
    intro hist
    simp only [orchestrate]
    by_cases h : (model hist).toolCalls = []
    · rw [if_pos h]; omega
    · rw [if_neg h]
      have := ih (hist ++ (model hist).toolCalls.map
        (fun tc => Turn.toolResult (execTool tc)))
      omega

theorem orchestrate_always_tools (model : List Turn → ModelResponse)
    (execTool : ToolCall → String) (hmodel : ∀ h, (model h).toolCalls ≠ []) :
    ∀ budget hist, orchestrate model execTool budget hist = (degradedAnswer, budget) := by
  intro budget
  induction budget with
  | zero => intro hist; rfl
  | succ b ih =>
    intro hist
    simp only [orchestrate]
    rw [if_neg (hmodel hist), ih]

/-- C1: a single select statement referencing any table name other than
the scoped table is rejected as UnknownTable, whatever the catalog
holds, and a query whose table references all resolve to the scoped
table is never rejected for this reason. -/
theorem validate_unknown_table (s : Stmt) (t sql allowed : String) (cat : SchemaCatalog) :
    (s.kind = .select → t ∈ s.tableRefs → t ≠ allowed →
      validate (some [s]) sql allowed cat = .error .UnknownTable) ∧
    ((∀ u ∈ s.tableRefs, u = allowed) →
      validate (some [s]) sql allowed cat ≠ .error .UnknownTable) := by
  constructor
  · intro hk ht hne
    have hex : ∃ x ∈ s.tableRefs, ¬x = allowed := ⟨t, ht, hne⟩
    simp [validate, hk, hex]
  · intro hall
    simp only [validate]
    split_ifs <;> simp_all
    rename_i hex
    rcases hex with ⟨x, hx, hxne⟩
    exact hxne (hall x hx)

/-- Witness for C1 at concrete inputs: the foreign table other_table
exists in the catalog yet the reference is rejected as UnknownTable,
while a query scoped to sales_1 is not rejected for this reason. -/
theorem validate_unknown_table_witness :
    validate (some [stmtSelectOther]) "SELECT * FROM other_table" "sales_1"
      twoTableCatalog = .error .UnknownTable ∧
    validate (some [stmtSelectSales]) "SELECT region FROM sales_1" "sales_1"
      twoTableCatalog ≠ .error .UnknownTable :=
  ⟨(validate_unknown_table stmtSelectOther "other_table"
      "SELECT * FROM other_table" "sales_1" twoTableCatalog).1 rfl (by decide) (by decide),
   (validate_unknown_table stmtSelectSales "other_table"
      "SELECT region FROM sales_1" "sales_1" twoTableCatalog).2 (by decide)⟩

/-- C2: a parse producing a second statement is rejected as
MultiStatement and the executor runs nothing against the store. -/
theorem validate_multi_statement (s1 s2 : Stmt) (rest : List Stmt) (sql allowed : String)
    (cat : SchemaCatalog) (run : ValidatedQuery → QueryResult) :
    validate (some (s1 :: s2 :: rest)) sql allowed cat = .error .MultiStatement ∧
    (executeSelectQuery (some (s1 :: s2 :: rest)) sql allowed cat run).2 = [] := by
  have h1 : validate (some (s1 :: s2 :: rest)) sql allowed cat = .error .MultiStatement := by
    simp [validate]
  exact ⟨h1, by simp [executeSelectQuery, h1]⟩

/-- C3: a single INSERT, UPDATE, DELETE, DROP or ALTER statement is
rejected as WriteOperation, and every statement the validator accepts
has select as its top-level kind. -/
theorem validate_write_operation (s : Stmt) (sql allowed : String) (cat : SchemaCatalog) :
    ((s.kind = .insert ∨ s.kind = .update ∨ s.kind = .delete ∨ s.kind = .drop ∨
        s.kind = .alter) →
      validate (some [s]) sql allowed cat = .error .WriteOperation) ∧
    (∀ parsed vq, validate parsed sql allowed cat = .ok vq → vq.stmt.kind = .select) := by
  constructor
  · intro hk
    have h1 : s.kind ≠ .select := by
      rcases hk with h | h | h | h | h <;> simp [h]
    have h2 : s.kind.isWriteKind = true := by
      rcases hk with h | h | h | h | h <;> simp [h, StmtKind.isWriteKind]
    simp [validate, h1, h2]
  · intro parsed vq h
    match parsed with
    | none => simp [validate] at h
    | some [] => simp [validate] at h
    | some (s' :: rest) =>
      simp only [validate] at h
      split_ifs at h with h1 h2 h3 h4 h5 h6
      have hvq : vq = { sqlText := sql, stmt := s', rowCap := defaultRowCap } := by
        injection h with h7
        exact h7.symm
      rw [hvq]
      simpa using h2

/-- Witness for C3 at concrete inputs: a DROP statement is rejected as
WriteOperation, and the accepted select query indeed has kind
select. -/
theorem validate_write_operation_witness :
    validate (some [stmtDropSales]) "DROP TABLE sales_1" "sales_1" twoTableCatalog =
      .error .WriteOperation ∧
    (validate (some [stmtSelectSales]) "SELECT region FROM sales_1" "sales_1"
        twoTableCatalog).toOption.elim True (fun vq => vq.stmt.kind = .select) := by
  refine ⟨(validate_write_operation stmtDropSales "DROP TABLE sales_1" "sales_1"
    twoTableCatalog).1 (by decide), ?_⟩
  have h := (validate_write_operation stmtSelectSales "SELECT region FROM sales_1"
    "sales_1" twoTableCatalog).2 (some [stmtSelectSales])
  cases hv : validate (some [stmtSelectSales]) "SELECT region FROM sales_1" "sales_1"
      twoTableCatalog with
  | error e => exact trivial
  | ok vq => simpa using h vq hv

/-- C4: ingestion is all-or-nothing.  Either the result is a descriptor
and exactly one new physical table appears, matching the descriptor in
name, columns and row count, with the descriptor registered under a
name new to the catalog, or the result is an error and the store and
the catalog are exactly as before. -/
theorem ingest_atomic (cfg : IngestConfig) (filename : String)
    (decoded : Option (List String × List (List String))) (txCommits : Bool)
    (st : IngestState) :
    (∃ d tbl, (ingest cfg filename decoded txCommits st).1 = .ok d ∧
      (ingest cfg filename decoded txCommits st).2.store = st.store ++ [tbl] ∧
      (ingest cfg filename decoded txCommits st).2.catalog.tables =
        st.catalog.tables ++ [d] ∧
      tbl.name = d.name ∧ tbl.columns = d.columns ∧ tbl.rows.length = d.rowCount ∧
      d.name ∉ st.catalog.tables.map TableDescriptor.name) ∨
    ((∃ e, (ingest cfg filename decoded txCommits st).1 = .error e) ∧
      (ingest cfg filename decoded txCommits st).2 = st) := by
  match decoded with
  | none => exact Or.inr ⟨⟨.DecodeFailure, rfl⟩, rfl⟩
  | some (labels, rows) =>
    simp only [ingest]
    split_ifs with h1 h2 h3 h4
    · exact Or.inr ⟨⟨.Empty, rfl⟩, rfl⟩
    · exact Or.inr ⟨⟨.TooWide, rfl⟩, rfl⟩
    · exact Or.inr ⟨⟨.TooManyRows, rfl⟩, rfl⟩
    · refine Or.inl ⟨_, _, rfl, rfl, rfl, rfl, rfl, rfl, ?_⟩
      exact sanitize_not_mem filename (st.catalog.tables.map TableDescriptor.name)
    · exact Or.inr ⟨⟨.PersistenceFailure, rfl⟩, rfl⟩

/-- C5: sanitize emits identifiers in the grammar, never reuses a used
name, puts the col marker in front of empty or reserved labels,
disambiguates collisions with a numeric suffix of at least 2, keeps the
columns of one table pairwise distinct, and maps the sales.csv header
scenario to the expected identifiers. -/
theorem sanitize_contract (raw : String) (used : List String) (labels : List String) :
    isGoodIdent (sanitize raw used) = true ∧
    sanitize raw used ∉ used ∧
    (cleanedChars raw = [] ∨ String.mk (cleanedChars raw) ∈ reservedWords →
      (baseIdentifier raw).data = 'c' :: 'o' :: 'l' :: '_' :: cleanedChars raw) ∧
    (baseIdentifier raw ∈ used →
      ∃ k, 2 ≤ k ∧ sanitize raw used = numberedName (baseIdentifier raw) k) ∧
    (sanitizeColumns labels).Nodup ∧
    sanitizeColumns ["Product Name", "Units Sold", "Units Sold"] =
      ["product_name", "units_sold", "units_sold_2"] := by
  refine ⟨isGoodIdent_sanitize raw used, sanitize_not_mem raw used, ?_, ?_,
    sanitizeColumns_nodup labels, by decide⟩
  · intro h
    refine data_baseIdentifier_marked raw ?_
    rcases h with h | h
    · exact Or.inl h
    · exact Or.inr (Or.inl h)
  · intro h
    unfold sanitize
    rw [if_pos h]
    rcases disambigAux_eq_numbered (baseIdentifier raw) used (used.length + 1) 2 with
      ⟨j, h1, h2⟩
    exact ⟨j, h1, h2⟩

/-- Witness for C5 at concrete inputs: a colliding label receives a
numeric suffix and a reserved-word label receives the col marker. -/
theorem sanitize_contract_witness :
    (∃ k, 2 ≤ k ∧ sanitize "Units Sold" ["product_name", "units_sold"] =
      numberedName (baseIdentifier "Units Sold") k) ∧
    (baseIdentifier "select").data = 'c' :: 'o' :: 'l' :: '_' :: cleanedChars "select" :=
  ⟨(sanitize_contract "Units Sold" ["product_name", "units_sold"] []).2.2.2.1 (by decide),
   (sanitize_contract "select" [] []).2.2.1 (by decide)⟩

/-- C6: the orchestration loop is bounded.  The iteration cap is a
constant between 5 and 8, every run makes at most that many model round
trips, and a model that answers every request with a tool call drives
the run into the degraded answer at exactly the cap. -/
theorem orchestrator_bounded (model : List Turn → ModelResponse)
    (execTool : ToolCall → String) (hist : List Turn) (userMsg : String) :
    5 ≤ maxIterations ∧ maxIterations ≤ 8 ∧
    (handleMessage model execTool hist userMsg).2 ≤ maxIterations ∧
    ((∀ h, (model h).toolCalls ≠ []) →
      handleMessage model execTool hist userMsg = (degradedAnswer, maxIterations)) := by
  refine ⟨by decide, by decide, ?_, ?_⟩
  · exact orchestrate_roundTrips_le model execTool maxIterations _
  · intro hmodel
    exact orchestrate_always_tools model execTool hmodel maxIterations _

/-- Witness for C6 at concrete inputs: the model that always issues a
tool call is cut off with the degraded answer after the cap. -/
theorem orchestrator_bounded_witness :
    handleMessage alwaysToolModel constExecTool [] "hi" =
      (degradedAnswer, maxIterations) :=
  (orchestrator_bounded alwaysToolModel constExecTool [] "hi").2.2.2
    (fun h => by simp [alwaysToolModel])

/-- C7: `onFileSelect` fires exactly when the upload resolved, it then
carries the backend table name, `handleFileSelect` stores that name as
the session table, and every chat request built by `sendChatMessage`
carries it to the chat endpoint. -/
theorem upload_chat_scoping (file : UploadedFile)
    (uploadResult : Except String UploadResponse) (st : UploadState)
    (aiSt : AIChatState) (q : String) :
    ((handleUpload file uploadResult st).2 ≠ none ↔
      ∃ r, uploadResult = .ok r) ∧
    (∀ r, uploadResult = .ok r →
      (handleUpload file uploadResult st).2 = some (file, r.table_name) ∧
      (handleFileSelect file r.table_name aiSt).tableName = some r.table_name ∧
      sendChatMessageRequest q r.table_name =
        { url := "/api/v1/chat/", question := q, table_name := r.table_name }) := by
  constructor
  · match uploadResult with
    | .ok r => simp [handleUpload]
    | .error m => simp [handleUpload]
  · rintro r rfl
    exact ⟨rfl, rfl, rfl⟩

/-- Witness for C7 at concrete inputs: a resolved upload reporting
sales_1 enters the chat view with that table name and the chat request
body carries it. -/
theorem upload_chat_scoping_witness :
    (handleUpload csvFile (.ok uploadResponse0) uploadState0).2 =
      some (csvFile, uploadResponse0.table_name) ∧
    (handleFileSelect csvFile uploadResponse0.table_name aiChatState0).tableName =
      some uploadResponse0.table_name ∧
    sendChatMessageRequest "what is the total" uploadResponse0.table_name =
      { url := "/api/v1/chat/", question := "what is the total",
        table_name := uploadResponse0.table_name } :=
  (upload_chat_scoping csvFile (.ok uploadResponse0) uploadState0 aiChatState0
    "what is the total").2 uploadResponse0 rfl

/-- C8: a dropped or selected file triggers the upload exactly when it
passes isValidFile; an invalid file sets the fixed error message and
the upload is never issued; and isValidFile holds exactly on the listed
MIME types and extensions. -/
theorem upload_file_validation (file : UploadedFile) (rest : List UploadedFile)
    (st : UploadState) :
    ((handleDrop (file :: rest) st).2 = some file ↔ isValidFile file = true) ∧
    ((handleFileChange (file :: rest) st).2 = some file ↔ isValidFile file = true) ∧
    (isValidFile file = false →
      (handleDrop (file :: rest) st).2 = none ∧
      (handleDrop (file :: rest) st).1.error = some invalidFileMessage ∧
      (handleFileChange (file :: rest) st).2 = none ∧
      (handleFileChange (file :: rest) st).1.error = some invalidFileMessage) ∧
    (isValidFile file = true ↔
      (file.type ∈ validTypes ∨ strEndsWith file.name ".csv" = true ∨
        strEndsWith file.name ".xlsx" = true ∨ strEndsWith file.name ".xls" = true)) := by
  by_cases hv : isValidFile file = true
  · refine ⟨by simp [handleDrop, hv], by simp [handleFileChange, hv], ?_, ?_⟩
    · intro hf
      rw [hv] at hf
      exact absurd hf (by decide)
    · rw [hv]
      simp only [true_iff]
      have := hv
      simp only [isValidFile, Bool.or_eq_true, List.elem_iff] at this
      tauto
  · have hv2 : isValidFile file = false := by
      cases h : isValidFile file
      · rfl
      · exact absurd h hv
    refine ⟨by simp [handleDrop, hv2], by simp [handleFileChange, hv2],
      fun _ => ⟨by simp [handleDrop, hv2], by simp [handleDrop, hv2],
        by simp [handleFileChange, hv2], by simp [handleFileChange, hv2]⟩, ?_⟩
    rw [hv2]
    constructor
    · intro hf
      exact absurd hf (by decide)
    · intro hf
      have : isValidFile file = true := by
        simp only [isValidFile, Bool.or_eq_true, List.elem_iff]
        tauto
      rw [hv2] at this
      exact absurd this (by decide)

/-- Witness for C8 at concrete inputs: the csv file is uploaded, the
pdf file is rejected with the fixed error message and no upload. -/
theorem upload_file_validation_witness :
    ((handleDrop [csvFile] uploadState0).2 = some csvFile) ∧
    ((handleDrop [pdfFile] uploadState0).2 = none ∧
      (handleDrop [pdfFile] uploadState0).1.error = some invalidFileMessage) := by
  constructor
  · exact (upload_file_validation csvFile [] uploadState0).1.mpr (by decide)
  · have h := (upload_file_validation pdfFile [] uploadState0).2.2.1 (by decide)
    exact ⟨h.1, h.2.1⟩

/-- C9 counterexample: with a successful fetch whose decoded payload
carries the empty string as its response field, the assistant message
appended is the fallback text, which is neither the backend answer nor
a reply carrying the degraded-error marker, refuting the claim as
stated. -/
theorem chat_turn_shape_counterexample :
    (handleSendMessage (some "sales_1") (.ok (some "")) chatState0).1.messages =
      chatState0.messages ++
        [⟨.user, "what is the total"⟩, ⟨.assistant, fallbackAnswer⟩] ∧
    fallbackAnswer ≠ "" ∧
    ("Sorry, I encountered an error:").data.isPrefixOf fallbackAnswer.data = false := by
  decide

/-- C9 amended: every completed invocation passing the input guard
appends exactly the user turn followed by one assistant turn whose
content is the backend answer when truthy, the fixed fallback when the
response field is missing or empty, or the degraded error reply on any
fetch or decode failure; afterwards isLoading is false and exactly one
request was posted. -/
theorem chat_turn_shape (fid : String) (outcome : FetchOutcome) (st : ChatState)
    (h : jsTrim st.inputValue ≠ "") :
    (handleSendMessage (some fid) outcome st).1.messages =
      st.messages ++ [⟨.user, st.inputValue⟩,
        ⟨.assistant,
          match outcome with
          | .ok r => okContent r
          | .networkError m => errorReply m
          | .httpNotOk => errorReply "Failed to get response from AI"
          | .decodeError m => errorReply m⟩] ∧
    (handleSendMessage (some fid) outcome st).1.isLoading = false ∧
    (handleSendMessage (some fid) outcome st).2 =
      some ⟨"/api/v1/endpoints/ai_chat", fid, st.inputValue⟩ := by
  simp only [handleSendMessage, if_neg h]
  match outcome with
  | .ok r => exact ⟨rfl, rfl, rfl⟩
  | .networkError m => exact ⟨rfl, rfl, rfl⟩
  | .httpNotOk => exact ⟨rfl, rfl, rfl⟩
  | .decodeError m => exact ⟨rfl, rfl, rfl⟩

/-- Witness for the amended C9 at concrete inputs: a failed fetch still
appends the user turn and a well-formed degraded assistant turn and
clears the loading flag. -/
theorem chat_turn_shape_witness :
    (handleSendMessage (some "sales_1") (.networkError "boom") chatState0).1.messages =
      chatState0.messages ++ [⟨.user, "what is the total"⟩,
        ⟨.assistant, errorReply "boom"⟩] ∧
    (handleSendMessage (some "sales_1") (.networkError "boom") chatState0).1.isLoading =
      false :=
  ⟨((chat_turn_shape "sales_1" (.networkError "boom") chatState0 (by decide)).1),
   ((chat_turn_shape "sales_1" (.networkError "boom") chatState0 (by decide)).2.1)⟩

/-- C10: when the input trims to the empty string or no file id is
present, handleSendMessage returns the state unchanged and posts no
request. -/
theorem send_guard_frame (fileId : Option String) (outcome : FetchOutcome)
    (st : ChatState) (h : jsTrim st.inputValue = "" ∨ fileId = none) :
    handleSendMessage fileId outcome st = (st, none) := by
  match fileId with
  | none => rfl
  | some fid =>
    rcases h with h | h
    · simp [handleSendMessage, h]
    · exact Option.noConfusion h

/-- Witness for C10 at concrete inputs: a whitespace-only input and a
missing file id each leave the state untouched and post nothing. -/
theorem send_guard_frame_witness :
    handleSendMessage (some "sales_1") (.ok (some "A")) chatStateBlank =
      (chatStateBlank, none) ∧
    handleSendMessage none (.ok (some "A")) chatState0 = (chatState0, none) :=
  ⟨send_guard_frame (some "sales_1") (.ok (some "A")) chatStateBlank
      (Or.inl (by decide)),
   send_guard_frame none (.ok (some "A")) chatState0 (Or.inr rfl)⟩

end Kearney
